import Mathlib

/-!
Verification of the columnar compute primitives layer (rolling-window
aggregation and string-column operations) against its interface
specification.  The repository ships only the interface headers
(`cpp/include/cudf/rolling.hpp`, `cpp/include/cudf/strings/strings_column_view.hpp`);
the kernel implementations are not part of the sources, so the operational
definitions below are modelled from the specification's words and the
headers' documentation comments, and the theorems check the specification's
claims against those models.
-/

namespace cudf

/-! ## Data model

A nullable column is a typed data buffer plus an optional validity bitmap.
Element values are modelled as rationals (exact arithmetic standing in for
the numeric element types).  An empty validity list models an absent bitmap
(all rows valid). -/

/-- Modelled from the spec: a nullable column; `data` is the typed buffer,
`valid` the validity bitmap (`[]` means the bitmap is absent, so every row
is valid). -/
structure Column where
  data : List ℚ
  valid : List Bool
deriving DecidableEq, Repr

/-- Number of rows of the column. -/
def Column.length (c : Column) : Nat := c.data.length

/-- Validity of row `j`: bit `j` of the bitmap, or `true` when the bitmap
is absent (or shorter than the data). -/
def Column.isValid (c : Column) (j : Nat) : Bool := c.valid.getD j true

/-- Rolling window aggregation operations, from the `rolling_operator`
enumeration of `rolling.hpp`. -/
inductive rolling_operator
  | SUM
  | MIN
  | MAX
  | MEAN
  | COUNT
  | NUMBA_UDF
  | CUDA_UDF
deriving DecidableEq, Repr

/-- The builtin reducers (the non-UDF tags of `rolling_operator`). -/
def builtin_ops : List rolling_operator :=
  [rolling_operator.SUM, rolling_operator.MIN, rolling_operator.MAX,
   rolling_operator.MEAN, rolling_operator.COUNT]

/-- Modelled from the spec: the indices of row `i`'s clipped neighborhood
`[max(0, i-w+1), min(length-1, i+f)]` (the implementation of
`rolling_window` is not in the sources).  Natural subtraction `i + 1 - w`
realises the clip at 0. -/
def windowIndices (len i w f : Nat) : List Nat :=
  (List.range len).filter (fun j => i + 1 - w ≤ j ∧ j ≤ min (len - 1) (i + f))

/-- Modelled from the spec: the values of `c` at the valid (non-null)
positions among `idxs`. -/
def validValues (c : Column) (idxs : List Nat) : List ℚ :=
  idxs.filterMap (fun j => if c.isValid j then some (c.data.getD j 0) else none)

/-- Modelled from the spec: the fold of a builtin reducer over the observed
values (`MEAN` is exact division here, standing in for floating point;
`COUNT` yields the number of observations as a numeric value). -/
def reduceOp (op : rolling_operator) (V : List ℚ) : ℚ :=
  match op with
  | rolling_operator.SUM => V.sum
  | rolling_operator.MIN => match V with | [] => 0 | v :: r => r.foldl min v
  | rolling_operator.MAX => match V with | [] => 0 | v :: r => r.foldl max v
  | rolling_operator.MEAN => V.sum / (V.length : ℚ)
  | rolling_operator.COUNT => (V.length : ℚ)
  | _ => 0

/-- Modelled from the spec: the fixed-window builtin `rolling_window`
overload of `rolling.hpp` (implementation not in the sources).  Row `i` is
null when the count of valid observations in its clipped neighborhood is
below `min_periods`, and otherwise holds the fold of `op` over those
observations. -/
def rolling_window (input : Column) (window forward_window min_periods : Nat)
    (op : rolling_operator) : List (Option ℚ) :=
  (List.range input.length).map (fun i =>
    let V := validValues input (windowIndices input.length i window forward_window)
    if V.length < min_periods then none else some (reduceOp op V))

/-- The claim's description of the observed values of row `i`: input values
at valid positions inside `[max(0, i-w+1), min(length-1, i+f)]`, with the
bounds written in integer arithmetic exactly as the specification states
them. -/
def specValidValues (input : Column) (i w f : Nat) : List ℚ :=
  ((List.range input.length).filter (fun (j : ℕ) =>
      max 0 ((i : ℤ) - (w : ℤ) + 1) ≤ ((j : ℕ) : ℤ) ∧
      ((j : ℕ) : ℤ) ≤ min ((input.length : ℤ) - 1) ((i : ℤ) + (f : ℤ)))).filterMap
    (fun j => if input.isValid j then some (input.data.getD j 0) else none)

/-! ## Variable-window argument validation -/

/-- Element types, from `cudf/types.hpp` (external to the sources; only the
tags needed by the claims are modelled). -/
inductive data_type
  | INT8
  | INT16
  | INT32
  | INT64
  | FLOAT32
  | FLOAT64
  | BOOL8
  | STRING
deriving DecidableEq, Repr

/-- Shape description of a column argument: element type, row count and
null count. -/
structure column_desc where
  dtype : data_type
  length : Nat
  null_count : Nat
deriving DecidableEq, Repr

/-- Modelled from the spec: the argument validation performed by the
variable-window `rolling_window` overload (the implementation is not in the
sources; the header documents the INT32 requirement and non-nullability of
the window columns).  The call fails with an invalid-argument condition if
a window column's type is not INT32, its length differs from the input's,
or it contains a null. -/
def rolling_window_var_check (input window forward_window : column_desc) :
    Except String Unit :=
  if window.dtype ≠ data_type.INT32 ∨ forward_window.dtype ≠ data_type.INT32 then
    Except.error "invalid-argument: window column type must be INT32"
  else if window.length ≠ input.length ∨ forward_window.length ≠ input.length then
    Except.error "invalid-argument: window column size must match input size"
  else if window.null_count ≠ 0 ∨ forward_window.null_count ≠ 0 then
    Except.error "invalid-argument: window columns must not contain nulls"
  else Except.ok ()

/-! ## UDF rolling window -/

/-- Modelled from the spec: the UDF `rolling_window` overloads (NUMBA_UDF
and CUDA_UDF; implementations not in the sources).  Per the header, the
validity of individual input elements is not checked: the observation
count is the full neighborhood width, and the aggregator is applied to the
raw data slots of every neighborhood position. -/
def rolling_window_udf (input : Column) (window forward_window min_periods : Nat)
    (udf : List ℚ → ℚ) : List (Option ℚ) :=
  (List.range input.length).map (fun i =>
    let idxs := windowIndices input.length i window forward_window
    if idxs.length < min_periods then none
    else some (udf (idxs.map (fun j => input.data.getD j 0))))

/-! ## String columns -/

/-- A strings column as a list of nullable rows. -/
abbrev SCol := List (Option String)

namespace strings

/-- Modelled from the spec: one result row of `concatenate` — the row
values of each input column in list order, joined by the separator; with
no null replacement any null contributor nullifies the row, otherwise each
null contributor is replaced by the literal replacement before joining. -/
def concatRow (cells : List (Option String)) (separator : String)
    (narep : Option String) : Option String :=
  match narep with
  | none =>
    if cells.any (fun c => c.isNone) then none
    else some (String.intercalate separator (cells.map (fun c => c.getD "")))
  | some r => some (String.intercalate separator (cells.map (fun c => c.getD r)))

/-- Modelled from the spec: `concatenate` of `strings_column_view.hpp`
(implementation not in the sources).  Fails on an empty column list or a
length mismatch; otherwise joins the columns row-wise. -/
def concatenate (strings_columns : List SCol) (separator : String)
    (narep : Option String) : Except String SCol :=
  match strings_columns with
  | [] => Except.error "invalid-argument: empty column list"
  | c0 :: rest =>
    if rest.all (fun c => c.length = c0.length) then
      Except.ok ((List.range c0.length).map (fun i =>
        concatRow (strings_columns.map (fun c => c.getD i none)) separator narep))
    else Except.error "invalid-argument: column lengths must match"

/-- Modelled from the spec: `join_strings` of `strings_column_view.hpp`
(implementation not in the sources).  Produces a single row joining the
rows in original order with the separator; a null row is skipped when the
replacement is absent and is spliced in as the replacement otherwise. -/
def join_strings (strings : SCol) (separator : String)
    (narep : Option String) : SCol :=
  [some (String.intercalate separator (strings.filterMap (fun c => c.or narep)))]

/-- Sort types, from the `sort_type` enumeration of
`strings_column_view.hpp`. -/
inductive sort_type
  | none
  | length
  | name
deriving DecidableEq, Repr

/-- Sort direction, from `cudf::order` (external to the sources). -/
inductive order
  | ASCENDING
  | DESCENDING
deriving DecidableEq, Repr

/-- Null placement, from `cudf::null_order` (external to the sources). -/
inductive null_order
  | BEFORE
  | AFTER
deriving DecidableEq, Repr

/-- Modelled from the spec: comparison of two non-null rows by the chosen
sort key — byte-length for `length`, byte order for `name`, and the
always-true relation for `none` (which induces no reordering). -/
def strLE (stype : sort_type) (a b : String) : Bool :=
  match stype with
  | sort_type.none => true
  | sort_type.length => a.utf8ByteSize ≤ b.utf8ByteSize
  | sort_type.name => a ≤ b

/-- Modelled from the spec: the row comparator used by `sort` — null rows
form one equivalence class placed before or after all non-null rows per
`null_order` regardless of `order`; non-null rows compare by the key, with
the key comparison flipped for descending order. -/
def rowLE (stype : sort_type) (ord : order) (no : null_order) :
    Option String → Option String → Bool
  | Option.none, Option.none => true
  | Option.none, some _ => no = null_order.BEFORE
  | some _, Option.none => no = null_order.AFTER
  | some a, some b =>
    match ord with
    | order.ASCENDING => strLE stype a b
    | order.DESCENDING => strLE stype b a

/-- Modelled from the spec: `sort` of `strings_column_view.hpp`
(implementation not in the sources) — the identity for `sort_type.none`
(no sorting), otherwise a stable merge sort by the row comparator. -/
def sort (strings : SCol) (stype : sort_type) (ord : order)
    (no : null_order) : SCol :=
  match stype with
  | sort_type.none => strings
  | _ => strings.mergeSort (rowLE stype ord no)

/-- Modelled from the spec: `gather` of `strings_column_view.hpp`
(implementation not in the sources) — result row `i` is the row of
`strings` at `gather_map[i]`, validity included. -/
def gather (strings : SCol) (gather_map : List Nat) : SCol :=
  gather_map.map (fun j => strings.getD j none)

/-- Modelled from the spec: the column-valued `scatter` of
`strings_column_view.hpp` (implementation not in the sources) — a copy of
`strings` in which row `scatter_map[j]` is overwritten with `values[j]`;
rows not addressed by the map pass through.  The header leaves duplicate
targets unspecified; this model applies the writes first-to-last, so the
last write wins. -/
def scatter (strings values : SCol) (scatter_map : List Nat) : SCol :=
  match scatter_map, values with
  | j :: js, v :: vs => scatter (strings.set j v) vs js
  | _, _ => strings

/-- Modelled from the spec: the scalar-valued `scatter` overload — row
`scatter_map[j]` is overwritten with the single supplied string. -/
def scatter_scalar (strings : SCol) (value : String)
    (scatter_map : List Nat) : SCol :=
  scatter strings (scatter_map.map (fun _ => some value)) scatter_map

/-- Modelled from the spec: `sublist` of `strings_column_view.hpp`
(implementation not in the sources).  Fails with invalid-argument when
`step = 0` or `start` lies outside `[0, length]`; otherwise `stop = -1`
denotes the length, the result length is the ceiling of
`(stop - start) / step` clamped to be non-negative, and entry `k` is the
row at index `start + k * step`. -/
def sublist (strings : SCol) (start stop step : ℤ) : Except String SCol :=
  if step = 0 ∨ start < 0 ∨ (strings.length : ℤ) < start then
    Except.error "invalid-argument: bad step or start"
  else
    Except.ok ((List.range
        (⌈(((if stop = -1 then (strings.length : ℤ) else stop) - start : ℤ) : ℚ) /
          ((step : ℤ) : ℚ)⌉).toNat).map (fun (k : Nat) =>
      strings.getD (start + ((k : Nat) : ℤ) * step).toNat none))

end strings

/-! ## Strings compound column layout -/

/-- A generic column view for the compound strings layout: parent-level row
count and null count plus the list of child buffers (children are modelled
as opaque integer buffers). -/
structure column_view where
  size : Nat
  null_count : Nat
  children : List (List ℤ)
deriving DecidableEq, Repr

/-- Child index of the offsets column, from `strings_column_view.hpp`. -/
def offsets_column_index : Nat := 0

/-- Child index of the chars column, from `strings_column_view.hpp`. -/
def chars_column_index : Nat := 1

/-- Wrapper over a compound strings column, from
`strings_column_view.hpp`. -/
structure strings_column_view where
  parent : column_view
deriving DecidableEq, Repr

/-- Modelled from the spec: the `offsets` accessor returns the internal
child column of offsets (the accessor body is not in the sources; the
header fixes its child index as `offsets_column_index`). -/
def strings_column_view.offsets (s : strings_column_view) : List ℤ :=
  s.parent.children.getD offsets_column_index []

/-- Modelled from the spec: the `chars` accessor returns the internal
child column of chars (the accessor body is not in the sources; the header
fixes its child index as `chars_column_index`). -/
def strings_column_view.chars (s : strings_column_view) : List ℤ :=
  s.parent.children.getD chars_column_index []

/-! ## Helper lemmas -/

/-- Reading a mapped range at an in-range position yields the mapped
value. -/
theorem getD_map_range {α : Type} (g : Nat → α) (n i : Nat) (d : α)
    (h : i < n) : ((List.range n).map g).getD i d = g i := by
  simp [List.getD_eq_getElem?_getD, List.getElem?_map, List.getElem?_range h]

/-- The claim's integer-arithmetic description of row `i`'s observed values
agrees with the model's neighborhood computation. -/
theorem specValidValues_eq (input : Column) (i w f : Nat) :
    specValidValues input i w f =
      validValues input (windowIndices input.length i w f) := by
  unfold specValidValues validValues windowIndices
  congr 1
  apply List.filter_congr
  intro j hj
  simp only [List.mem_range] at hj
  simp only [decide_eq_decide]
  omega

/-! ## Claim theorems -/

/-- C1: for every input column, non-negative fixed window sizes, min
periods and builtin reducer, `rolling_window` nullifies row `i` exactly
when the count of valid observations in the clipped neighborhood
`[max(0, i-w+1), min(length-1, i+f)]` is below `min_periods`, and
otherwise folds the reducer over those observations; in particular the
spec's end-to-end SUM example holds. -/
theorem C1_rolling_window_builtin_semantics :
    (∀ (input : Column) (w f m : Nat) (op : rolling_operator),
      op ∈ builtin_ops → ∀ i, i < input.length →
      (rolling_window input w f m op).getD i none =
        (if (specValidValues input i w f).length < m then none
         else some (reduceOp op (specValidValues input i w f)))) ∧
    rolling_window ⟨[1,2,3,4,5], []⟩ 2 0 2 rolling_operator.SUM =
      [none, some 3, some 5, some 7, some 9] := by
  constructor
  · intro input w f m op _hop i hi
    rw [specValidValues_eq]
    unfold rolling_window
    rw [getD_map_range _ _ _ _ hi]
  · simp [rolling_window, windowIndices, validValues, reduceOp, Column.isValid,
      Column.length, List.range_succ]
    norm_num

/-- Witness for C1: the general row formula applied to row 1 of the spec's
end-to-end example. -/
theorem C1_rolling_window_builtin_semantics_witness :
    (rolling_window ⟨[1,2,3,4,5], []⟩ 2 0 2 rolling_operator.SUM).getD 1 none =
      (if (specValidValues ⟨[1,2,3,4,5], []⟩ 1 2 0).length < 2 then none
       else some (reduceOp rolling_operator.SUM
         (specValidValues ⟨[1,2,3,4,5], []⟩ 1 2 0))) :=
  C1_rolling_window_builtin_semantics.1 ⟨[1,2,3,4,5], []⟩ 2 0 2
    rolling_operator.SUM (by decide) 1 (by decide)

/-- C2: the variable-window call succeeds exactly when both window columns
are INT32, their lengths match the input's, and neither contains a null;
any violation yields an invalid-argument error (never a silent
coercion). -/
theorem C2_variable_window_validation :
    ∀ (input window forward_window : column_desc),
    (rolling_window_var_check input window forward_window = Except.ok () ↔
      (window.dtype = data_type.INT32 ∧ forward_window.dtype = data_type.INT32 ∧
       window.length = input.length ∧ forward_window.length = input.length ∧
       window.null_count = 0 ∧ forward_window.null_count = 0)) ∧
    ((window.dtype ≠ data_type.INT32 ∨ forward_window.dtype ≠ data_type.INT32 ∨
      window.length ≠ input.length ∨ forward_window.length ≠ input.length ∨
      window.null_count ≠ 0 ∨ forward_window.null_count ≠ 0) →
      ∃ msg, rolling_window_var_check input window forward_window =
        Except.error msg) := by
  intro input window forward_window
  unfold rolling_window_var_check
  constructor
  · split_ifs with h1 h2 h3 <;> simp_all <;> tauto
  · intro hbad
    split_ifs with h1 h2 h3
    · exact ⟨_, rfl⟩
    · exact ⟨_, rfl⟩
    · exact ⟨_, rfl⟩
    · exact absurd hbad (by tauto)

/-- Witness for C2: a FLOAT32 window column is rejected with an error. -/
theorem C2_variable_window_validation_witness :
    ∃ msg, rolling_window_var_check ⟨data_type.FLOAT64, 5, 0⟩
      ⟨data_type.FLOAT32, 5, 0⟩ ⟨data_type.INT32, 5, 0⟩ = Except.error msg :=
  (C2_variable_window_validation ⟨data_type.FLOAT64, 5, 0⟩
    ⟨data_type.FLOAT32, 5, 0⟩ ⟨data_type.INT32, 5, 0⟩).2 (by decide)

/-- C3: the UDF rolling-window overloads never consult the validity
bitmap — the output is identical for any two bitmaps over the same data,
the observation count is the full clipped neighborhood width, and the
aggregator is applied to the raw data slot of every neighborhood
position. -/
theorem C3_udf_ignores_validity :
    (∀ (data : List ℚ) (valid valid' : List Bool) (w f m : Nat)
      (udf : List ℚ → ℚ),
      rolling_window_udf ⟨data, valid⟩ w f m udf =
        rolling_window_udf ⟨data, valid'⟩ w f m udf) ∧
    (∀ (input : Column) (w f m : Nat) (udf : List ℚ → ℚ) (i : Nat),
      i < input.length →
      (rolling_window_udf input w f m udf).getD i none =
        (if (windowIndices input.length i w f).length < m then none
         else some (udf ((windowIndices input.length i w f).map
           (fun j => input.data.getD j 0))))) := by
  constructor
  · intro data valid valid' w f m udf
    rfl
  · intro input w f m udf i hi
    unfold rolling_window_udf
    rw [getD_map_range _ _ _ _ hi]

/-- Witness for C3: the row formula applied to a column whose only
neighborhood element is null — the row is still aggregated, not
nullified. -/
theorem C3_udf_ignores_validity_witness :
    (rolling_window_udf ⟨[1, 2], [false, true]⟩ 1 0 1 (fun l => l.sum)).getD 0
        none =
      (if (windowIndices (Column.length ⟨[1, 2], [false, true]⟩) 0 1 0).length < 1
       then none
       else some ((fun (l : List ℚ) => l.sum)
         ((windowIndices (Column.length ⟨[1, 2], [false, true]⟩) 0 1 0).map
           (fun j => List.getD [1, 2] j 0)))) :=
  C3_udf_ignores_validity.2 ⟨[1, 2], [false, true]⟩ 1 0 1 (fun l => l.sum) 0
    (by decide)

/-- C4: for equal-length string columns, `concatenate` returns a column of
the same length in which, with no null replacement, row `i` is null
exactly when some input column is null at `i`, and with a null replacement
every null contributor is replaced by the literal before joining, so row
`i` is always non-null. -/
theorem C4_concatenate_null_semantics :
    ∀ (c0 : SCol) (rest : List SCol) (sep : String) (narep : Option String),
    (∀ c ∈ (c0 :: rest : List SCol), c.length = c0.length) →
    ∃ out, strings.concatenate (c0 :: rest) sep narep = Except.ok out ∧
      out.length = c0.length ∧
      (∀ i, i < c0.length →
        (narep = none →
          (out.getD i none = none ↔
            ∃ c ∈ (c0 :: rest : List SCol), c.getD i none = none)) ∧
        (∀ r, narep = some r →
          out.getD i none = some (String.intercalate sep
            ((c0 :: rest).map (fun c => (c.getD i none).getD r))) ∧
          (out.getD i none).isSome = true)) := by
  intro c0 rest sep narep hlen
  have hall : rest.all (fun c => c.length = c0.length) = true := by
    rw [List.all_eq_true]
    intro c hc
    simpa using hlen c (List.mem_cons_of_mem _ hc)
  refine ⟨(List.range c0.length).map (fun i =>
      strings.concatRow ((c0 :: rest).map (fun c => c.getD i none)) sep narep),
    ?_, ?_, ?_⟩
  · unfold strings.concatenate
    simp only [hall, if_true]
  · simp
  · intro i hi
    rw [getD_map_range _ _ _ _ hi]
    constructor
    · rintro rfl
      unfold strings.concatRow
      split_ifs with h
      · simp only [List.any_eq_true, List.mem_map] at h
        obtain ⟨x, ⟨c, hc, rfl⟩, hx⟩ := h
        simp only [Option.isNone_iff_eq_none] at hx
        exact iff_of_true rfl ⟨c, hc, hx⟩
      · have hno : ¬ ∃ c ∈ (c0 :: rest : List SCol), c.getD i none = none := by
          rintro ⟨c, hc, hcn⟩
          exact h (List.any_eq_true.mpr
            ⟨c.getD i none, List.mem_map.mpr ⟨c, hc, rfl⟩, by rw [hcn]; rfl⟩)
        exact iff_of_false (by simp) hno
    · rintro r rfl
      refine ⟨?_, ?_⟩
      · show some (String.intercalate sep
            (((c0 :: rest).map (fun c => c.getD i none)).map
              (fun c => c.getD r))) = _
        rw [List.map_map]
        rfl
      · rfl

/-- Witness for C4: the spec's two-column example with separator and no
null replacement. -/
theorem C4_concatenate_null_semantics_witness :
    ∃ out, strings.concatenate [[some "a", some "b"], [some "c", some "d"]]
        ":" none = Except.ok out ∧
      out.length = ([some "a", some "b"] : SCol).length ∧
      (∀ i, i < ([some "a", some "b"] : SCol).length →
        ((none : Option String) = none →
          (out.getD i none = none ↔
            ∃ c ∈ ([[some "a", some "b"], [some "c", some "d"]] : List SCol),
              c.getD i none = none)) ∧
        (∀ r, (none : Option String) = some r →
          out.getD i none = some (String.intercalate ":"
            (([[some "a", some "b"], [some "c", some "d"]] : List SCol).map
              (fun c => (c.getD i none).getD r))) ∧
          (out.getD i none).isSome = true)) :=
  C4_concatenate_null_semantics [some "a", some "b"] [[some "c", some "d"]]
    ":" none (by decide)

/-- C5: `join_strings` returns a single row joining the valid rows in
original order with the separator, skipping null rows when the replacement
is absent and splicing the replacement in at each null row's position
otherwise; in particular the spec's example yields the single row
joining aa, the replacement, the empty string, and zz. -/
theorem C5_join_strings_semantics :
    (∀ (s : SCol) (sep : String) (narep : Option String),
      (strings.join_strings s sep narep).length = 1) ∧
    (∀ (s : SCol) (sep : String),
      strings.join_strings s sep none =
        [some (String.intercalate sep (s.filterMap id))]) ∧
    (∀ (s : SCol) (sep : String) (r : String),
      strings.join_strings s sep (some r) =
        [some (String.intercalate sep (s.map (fun c => c.getD r)))]) ∧
    strings.join_strings [some "aa", none, some "", some "zz"] ":"
        (some "_") = [some "aa:_::zz"] := by
  refine ⟨fun _ _ _ => rfl, ?_, ?_, by decide⟩
  · intro s sep
    unfold strings.join_strings
    have h : (fun (c : Option String) => c.or none) =
        (id : Option String → Option String) :=
      funext fun c => by cases c <;> rfl
    rw [h]
  · intro s sep r
    unfold strings.join_strings
    have h : List.filterMap (fun (c : Option String) => c.or (some r)) s =
        s.map (fun c => c.getD r) := by
      induction s with
      | nil => rfl
      | cons c t ih =>
        cases c with
        | none =>
          show r :: List.filterMap (fun (c : Option String) => c.or (some r)) t =
            r :: t.map (fun c => c.getD r)
          exact congrArg (List.cons r) ih
        | some a =>
          show a :: List.filterMap (fun (c : Option String) => c.or (some r)) t =
            a :: t.map (fun c => c.getD r)
          exact congrArg (List.cons a) ih
    rw [h]

/-- Setting a position of a list to its current value leaves the list
unchanged. -/
theorem set_getD_self {α : Type} (l : List α) (j : Nat) (d : α)
    (h : j < l.length) : l.set j (l.getD j d) = l := by
  apply List.ext_getElem?
  intro i
  by_cases hij : j = i
  · subst hij
    rw [List.getElem?_set_self h, List.getD_eq_getElem?_getD,
      List.getElem?_eq_getElem h]
    rfl
  · exact List.getElem?_set_ne hij

/-- Scatter preserves the target column's length. -/
theorem scatter_length : ∀ (m : List Nat) (v s : SCol),
    (strings.scatter s v m).length = s.length := by
  intro m
  induction m with
  | nil => intro v s; cases v <;> rfl
  | cons j js ih =>
    intro v s
    cases v with
    | nil => rfl
    | cons w ws =>
      show (strings.scatter (s.set j w) ws js).length = s.length
      rw [ih ws (s.set j w), List.length_set]

/-- Rows that are not scatter targets pass through unchanged. -/
theorem scatter_getD_not_mem : ∀ (m : List Nat) (v s : SCol) (i : Nat),
    i ∉ m → (strings.scatter s v m).getD i none = s.getD i none := by
  intro m
  induction m with
  | nil => intro v s i _; cases v <;> rfl
  | cons j js ih =>
    intro v s i hi
    cases v with
    | nil => rfl
    | cons w ws =>
      show (strings.scatter (s.set j w) ws js).getD i none = s.getD i none
      rw [ih ws (s.set j w) i (fun hmem => hi (List.mem_cons_of_mem _ hmem))]
      simp only [List.getD_eq_getElem?_getD]
      rw [List.getElem?_set_ne (by rintro rfl; exact hi (List.mem_cons_self _ _))]

/-- With distinct in-range targets, the scatter result at target
`m[j]` is `v[j]`. -/
theorem scatter_getD_target : ∀ (m : List Nat) (v s : SCol) (j : Nat),
    m.Nodup → j < m.length → j < v.length → m.getD j 0 < s.length →
    (strings.scatter s v m).getD (m.getD j 0) none = v.getD j none := by
  intro m
  induction m with
  | nil => intro v s j _ hj; exact absurd hj (by simp)
  | cons t ts ih =>
    intro v s j hnd hj hjv hlt
    cases v with
    | nil => exact absurd hjv (by simp)
    | cons w ws =>
      cases j with
      | zero =>
        show (strings.scatter (s.set t w) ws ts).getD t none = w
        rw [scatter_getD_not_mem ts ws (s.set t w) t (List.Nodup.not_mem hnd)]
        simp only [List.getD_eq_getElem?_getD]
        rw [List.getElem?_set_self (by simpa using hlt)]
        rfl
      | succ j' =>
        show (strings.scatter (s.set t w) ws ts).getD (ts.getD j' 0) none =
          ws.getD j' none
        exact ih ws (s.set t w) j' (List.Nodup.of_cons hnd)
          (by simpa using hj) (by simpa using hjv)
          (by simpa using hlt)

/-- C7: for in-range, duplicate-free indices, scattering the gathered rows
back through the same index column reproduces the base column
unchanged. -/
theorem C7_scatter_gather_roundtrip :
    ∀ (base : SCol) (idx : List Nat),
    (∀ j ∈ idx, j < base.length) → idx.Nodup →
    strings.scatter base (strings.gather base idx) idx = base := by
  intro base idx
  induction idx with
  | nil => intro _ _; rfl
  | cons j js ih =>
    intro hb hnd
    show strings.scatter (base.set j (base.getD j none))
        (js.map (fun t => base.getD t none)) js = base
    rw [set_getD_self base j none (hb j (List.mem_cons_self _ _))]
    exact ih (fun t ht => hb t (List.mem_cons_of_mem _ ht))
      (List.Nodup.of_cons hnd)

/-- Witness for C7: the round trip on a three-row column through the index
column with rows 2 and 0. -/
theorem C7_scatter_gather_roundtrip_witness :
    strings.scatter [some "a", some "b", some "c"]
        (strings.gather [some "a", some "b", some "c"] [2, 0]) [2, 0] =
      [some "a", some "b", some "c"] :=
  C7_scatter_gather_roundtrip [some "a", some "b", some "c"] [2, 0]
    (by decide) (by decide)

/-- C8: with in-range, duplicate-free targets, `scatter` overwrites row
`scatter_map[j]` with `values[j]` (column-valued) or with the single
supplied string (scalar-valued) and leaves every other row unchanged from
the base column. -/
theorem C8_scatter_semantics :
    ∀ (base values : SCol) (m : List Nat) (value : String),
    m.Nodup → (∀ t ∈ m, t < base.length) → values.length = m.length →
    ((strings.scatter base values m).length = base.length ∧
     (∀ j, j < m.length →
       (strings.scatter base values m).getD (m.getD j 0) none =
         values.getD j none) ∧
     (∀ i, i ∉ m →
       (strings.scatter base values m).getD i none = base.getD i none) ∧
     (∀ j, j < m.length →
       (strings.scatter_scalar base value m).getD (m.getD j 0) none =
         some value) ∧
     (∀ i, i ∉ m →
       (strings.scatter_scalar base value m).getD i none =
         base.getD i none)) := by
  intro base values m value hnd hb hlen
  have hmem : ∀ j, j < m.length → m.getD j 0 ∈ m := by
    intro j hj
    rw [List.getD_eq_getElem?_getD, List.getElem?_eq_getElem hj]
    exact List.getElem_mem hj
  refine ⟨scatter_length m values base, ?_, ?_, ?_, ?_⟩
  · intro j hj
    exact scatter_getD_target m values base j hnd hj (hlen ▸ hj)
      (hb _ (hmem j hj))
  · intro i hi
    exact scatter_getD_not_mem m values base i hi
  · intro j hj
    unfold strings.scatter_scalar
    rw [scatter_getD_target m (m.map (fun _ => some value)) base j hnd hj
      (by simpa using hj) (hb _ (hmem j hj))]
    rw [List.getD_eq_getElem?_getD, List.getElem?_map,
      List.getElem?_eq_getElem hj]
    rfl
  · intro i hi
    exact scatter_getD_not_mem m (m.map (fun _ => some value)) base i hi

/-- Witness for C8: the header's scatter example — a four-row base, values
columns of two rows, targets 1 and 3. -/
theorem C8_scatter_semantics_witness :
    ((strings.scatter [some "a", some "b", some "c", some "d"]
        [some "e", some "f"] [1, 3]).length =
      ([some "a", some "b", some "c", some "d"] : SCol).length ∧
     (∀ j, j < ([1, 3] : List Nat).length →
       (strings.scatter [some "a", some "b", some "c", some "d"]
           [some "e", some "f"] [1, 3]).getD (List.getD [1, 3] j 0) none =
         List.getD [some "e", some "f"] j none) ∧
     (∀ i, i ∉ ([1, 3] : List Nat) →
       (strings.scatter [some "a", some "b", some "c", some "d"]
           [some "e", some "f"] [1, 3]).getD i none =
         List.getD [some "a", some "b", some "c", some "d"] i none) ∧
     (∀ j, j < ([1, 3] : List Nat).length →
       (strings.scatter_scalar [some "a", some "b", some "c", some "d"]
           "e" [1, 3]).getD (List.getD [1, 3] j 0) none = some "e") ∧
     (∀ i, i ∉ ([1, 3] : List Nat) →
       (strings.scatter_scalar [some "a", some "b", some "c", some "d"]
           "e" [1, 3]).getD i none =
         List.getD [some "a", some "b", some "c", some "d"] i none)) :=
  C8_scatter_semantics [some "a", some "b", some "c", some "d"]
    [some "e", some "f"] [1, 3] "e" (by decide) (by decide) (by decide)

/-- The key comparison is total for every sort key. -/
theorem strLE_total (st : strings.sort_type) (a b : String) :
    strings.strLE st a b || strings.strLE st b a := by
  cases st with
  | none => simp [strings.strLE]
  | length =>
    rcases Nat.le_total a.utf8ByteSize b.utf8ByteSize with h | h <;>
      simp [strings.strLE, h]
  | name =>
    rcases le_total a b with h | h <;> simp [strings.strLE, h]

/-- The key comparison is transitive for every sort key. -/
theorem strLE_trans (st : strings.sort_type) (a b c : String) :
    strings.strLE st a b → strings.strLE st b c → strings.strLE st a c := by
  cases st with
  | none => simp [strings.strLE]
  | length => simp only [strings.strLE, decide_eq_true_eq]; omega
  | name =>
    simp only [strings.strLE, decide_eq_true_eq]
    exact le_trans

/-- The row comparator is total. -/
theorem rowLE_total (st : strings.sort_type) (o : strings.order)
    (no : strings.null_order) (a b : Option String) :
    strings.rowLE st o no a b || strings.rowLE st o no b a := by
  cases a with
  | none =>
    cases b with
    | none => rfl
    | some x => cases no <;> rfl
  | some x =>
    cases b with
    | none => cases no <;> rfl
    | some y => cases o <;> exact strLE_total st _ _

/-- The row comparator is transitive. -/
theorem rowLE_trans (st : strings.sort_type) (o : strings.order)
    (no : strings.null_order) :
    ∀ (a b c : Option String),
    strings.rowLE st o no a b → strings.rowLE st o no b c →
    strings.rowLE st o no a c := by
  rintro (_ | a) (_ | b) (_ | c) h1 h2
  · rfl
  · exact h2
  · rfl
  · exact h1
  · exact h1
  · simp only [strings.rowLE, decide_eq_true_eq] at h1 h2
    rw [h1] at h2
    nomatch h2
  · exact h2
  · cases o with
    | ASCENDING => exact strLE_trans st a b c h1 h2
    | DESCENDING => exact strLE_trans st c b a h2 h1

/-- For a sorting key other than `none`, `sort` is the merge sort by the
row comparator. -/
theorem sort_of_ne_none (s : SCol) (st : strings.sort_type)
    (o : strings.order) (no : strings.null_order)
    (h : st ≠ strings.sort_type.none) :
    strings.sort s st o no = s.mergeSort (strings.rowLE st o no) := by
  cases st with
  | none => exact absurd rfl h
  | length => rfl
  | name => rfl

/-- C6 counterexample: with sort key `none` the sort performs no
reordering, so a null row is not moved before the non-null rows even with
null order BEFORE, contradicting the claim's null-placement clause for
every choice of sort key. -/
theorem C6_sort_counterexample :
    strings.sort [some "b", none] strings.sort_type.none
        strings.order.ASCENDING strings.null_order.BEFORE = [some "b", none] ∧
    strings.sort [some "b", none] strings.sort_type.none
        strings.order.ASCENDING strings.null_order.BEFORE ≠ [none, some "b"] :=
  ⟨rfl, by decide⟩

/-- C6 (amended): for every key, order, and null order, `sort` returns a
stable permutation of the input that is idempotent, and — for the keys
that actually reorder (`length` and `name`) — places the null rows
entirely before or entirely after all non-null rows per the null order;
stability is expressed by preservation of every comparator-ordered pair
sublist (in particular pairs of nulls and pairs of equal keys). -/
theorem C6_sort_amended :
    ∀ (s : SCol) (st : strings.sort_type) (o : strings.order)
      (no : strings.null_order),
    (strings.sort s st o no).Perm s ∧
    strings.sort (strings.sort s st o no) st o no = strings.sort s st o no ∧
    (st ≠ strings.sort_type.none → no = strings.null_order.BEFORE →
      (strings.sort s st o no).Pairwise (fun a b => a.isSome → b.isSome)) ∧
    (st ≠ strings.sort_type.none → no = strings.null_order.AFTER →
      (strings.sort s st o no).Pairwise (fun a b => a.isNone → b.isNone)) ∧
    (∀ a b, List.Sublist [a, b] s → strings.rowLE st o no a b →
      List.Sublist [a, b] (strings.sort s st o no)) := by
  intro s st o no
  by_cases hst : st = strings.sort_type.none
  · subst hst
    refine ⟨List.Perm.refl s, rfl, ?_, ?_, ?_⟩
    · intro h; exact absurd rfl h
    · intro h; exact absurd rfl h
    · intro a b hsub _; exact hsub
  · rw [sort_of_ne_none s st o no hst]
    have hsorted := List.sorted_mergeSort (rowLE_trans st o no)
      (rowLE_total st o no) s
    refine ⟨List.mergeSort_perm s _, ?_, ?_, ?_, ?_⟩
    · rw [sort_of_ne_none _ st o no hst]
      exact List.mergeSort_of_sorted hsorted
    · intro _ hno
      subst hno
      refine hsorted.imp ?_
      intro a b hab
      cases a with
      | none => intro h; nomatch h
      | some x =>
        cases b with
        | none =>
          intro _
          simp only [strings.rowLE, decide_eq_true_eq] at hab
          nomatch hab
        | some y => intro _; rfl
    · intro _ hno
      subst hno
      refine hsorted.imp ?_
      intro a b hab
      cases a with
      | some x => intro h; nomatch h
      | none =>
        cases b with
        | some y =>
          simp only [strings.rowLE, decide_eq_true_eq] at hab
          nomatch hab
        | none => intro _; rfl
    · intro a b hsub hab
      exact List.pair_sublist_mergeSort (rowLE_trans st o no)
        (rowLE_total st o no) hab hsub

/-- Witness for C6: sorting a four-row column by name ascending with nulls
before — the nulls form a prefix and the two null rows keep their relative
order. -/
theorem C6_sort_amended_witness :
    (strings.sort [some "bb", none, some "a", none] strings.sort_type.name
        strings.order.ASCENDING strings.null_order.BEFORE).Pairwise
      (fun a b => a.isSome → b.isSome) ∧
    List.Sublist [(none : Option String), none]
      (strings.sort [some "bb", none, some "a", none] strings.sort_type.name
        strings.order.ASCENDING strings.null_order.BEFORE) :=
  ⟨(C6_sort_amended [some "bb", none, some "a", none] strings.sort_type.name
      strings.order.ASCENDING strings.null_order.BEFORE).2.2.1 (by decide) rfl,
   (C6_sort_amended [some "bb", none, some "a", none] strings.sort_type.name
      strings.order.ASCENDING strings.null_order.BEFORE).2.2.2.2 none none
     (by decide) (by decide)⟩

/-- C9 counterexample: at `start = 2`, `end = -1` (denoting the length 4)
and `step = -1`, the length formula max(0, ⌈(end−start)/step⌉) gives 0, so
the result is empty — yet the claim's enumeration clause would select index
`start = 2` itself (which lies inside `[start, end)`), i.e. the row c.  The
two clauses of the claim contradict each other for negative steps. -/
theorem C9_sublist_counterexample :
    strings.sublist [some "a", some "b", some "c", some "d"] 2 (-1) (-1) =
      Except.ok [] ∧
    strings.sublist [some "a", some "b", some "c", some "d"] 2 (-1) (-1) ≠
      Except.ok [some "c"] := by
  have h : strings.sublist [some "a", some "b", some "c", some "d"] 2 (-1) (-1) =
      Except.ok [] := by
    unfold strings.sublist
    norm_num
    have h2 : ⌈(-2 : ℚ)⌉ = -2 := by
      have hc : ((-2 : ℤ) : ℚ) = (-2 : ℚ) := by norm_num
      rw [← hc, Int.ceil_intCast]
    rw [h2]
    omega
  refine ⟨h, ?_⟩
  rw [h]
  intro hh
  nomatch Except.ok.inj hh

/-- C9 (amended): `sublist` fails with invalid-argument exactly when
`step = 0` or `start` lies outside `[0, length]`; on success the result
length is the ceiling of `(end − start) / step` clamped to be
non-negative (`end = -1` denoting the length), and for positive steps the
result enumerates precisely the rows at `start, start+step, …` while that
index stays inside `[start, end)`. -/
theorem C9_sublist_amended :
    ∀ (s : SCol) (start stop step : ℤ),
    ((∃ out, strings.sublist s start stop step = Except.ok out) ↔
      (step ≠ 0 ∧ 0 ≤ start ∧ start ≤ (s.length : ℤ))) ∧
    (∀ out, strings.sublist s start stop step = Except.ok out →
      out.length =
        (⌈(((if stop = -1 then (s.length : ℤ) else stop) - start : ℤ) : ℚ) /
          ((step : ℤ) : ℚ)⌉).toNat ∧
      (0 < step → ∀ k : Nat,
        ((k < out.length) ↔
          (start + (k : ℤ) * step <
            (if stop = -1 then (s.length : ℤ) else stop))) ∧
        (k < out.length →
          out.getD k none = s.getD (start + (k : ℤ) * step).toNat none ∧
          start ≤ start + (k : ℤ) * step))) := by
  intro s start stop step
  by_cases hcond : (step = 0 ∨ start < 0 ∨ (s.length : ℤ) < start)
  · constructor
    · rw [strings.sublist, if_pos hcond]
      constructor
      · rintro ⟨out, hout⟩
        nomatch hout
      · intro hc
        rcases hcond with h | h | h
        · exact absurd h hc.1
        · omega
        · omega
    · intro out hout
      rw [strings.sublist, if_pos hcond] at hout
      nomatch hout
  · constructor
    · rw [strings.sublist, if_neg hcond]
      push_neg at hcond
      exact iff_of_true ⟨_, rfl⟩ ⟨hcond.1, by omega, by omega⟩
    · intro out hout
      rw [strings.sublist, if_neg hcond] at hout
      have hout' := Except.ok.inj hout
      subst hout'
      constructor
      · simp
      · intro hstep k
        have hlen : (List.length ((List.range
            (⌈(((if stop = -1 then (s.length : ℤ) else stop) - start : ℤ) : ℚ) /
              ((step : ℤ) : ℚ)⌉).toNat).map (fun (k : Nat) =>
            s.getD (start + ((k : Nat) : ℤ) * step).toNat none))) =
            (⌈(((if stop = -1 then (s.length : ℤ) else stop) - start : ℤ) : ℚ) /
              ((step : ℤ) : ℚ)⌉).toNat := by simp
        rw [hlen]
        have hstepQ : (0 : ℚ) < ((step : ℤ) : ℚ) := by exact_mod_cast hstep
        constructor
        · rw [Int.lt_toNat, Int.lt_ceil, lt_div_iff₀ hstepQ]
          rw [show (((k : ℤ) : ℚ) * ((step : ℤ) : ℚ)) =
            (((k : ℤ) * step : ℤ) : ℚ) by push_cast; ring]
          rw [Int.cast_lt]
          constructor
          · intro hk
            linarith
          · intro hk
            linarith
        · intro hk
          refine ⟨getD_map_range _ _ _ _ (by simpa using hk), ?_⟩
          have hnn : 0 ≤ (k : ℤ) * step :=
            mul_nonneg (Int.ofNat_nonneg k) (le_of_lt hstep)
          linarith

/-- Witness for C9: the slice of a four-row column from index 1 with step
2 — its rows are exactly the in-range indices 1 and 3. -/
theorem C9_sublist_amended_witness :
    ∃ out, strings.sublist [some "a", some "b", some "c", some "d"] 1 (-1) 2 =
        Except.ok out ∧
      ∀ k : Nat,
        (k < out.length ↔ (1 + (k : ℤ) * 2 <
          (if (-1 : ℤ) = -1 then
            (([some "a", some "b", some "c", some "d"] : SCol).length : ℤ)
          else (-1 : ℤ)))) := by
  obtain ⟨out, hout⟩ :=
    (C9_sublist_amended [some "a", some "b", some "c", some "d"] 1 (-1) 2).1.mpr
      (by decide)
  exact ⟨out, hout, fun k =>
    (((C9_sublist_amended [some "a", some "b", some "c", some "d"] 1 (-1) 2).2
        out hout).2 (by decide) k).1⟩

/-- C10: the compound strings column stores its offsets child at child
index 0 and its chars child at child index 1, and the accessors return
exactly those children. -/
theorem C10_strings_layout :
    offsets_column_index = 0 ∧ chars_column_index = 1 ∧
    (∀ s : strings_column_view,
      s.offsets = s.parent.children.getD 0 [] ∧
      s.chars = s.parent.children.getD 1 []) :=
  ⟨rfl, rfl, fun _ => ⟨rfl, rfl⟩⟩

end cudf
